import Mathlib

/-!
Verification of the PlantHopper pose-tracking and time-gated control loop.

This file is a shallow embedding of the core of `Main/main.py` and
`Main/modules/apriltag_detector.py`:

* the WATER scan/fire worker (`water_worker`), modelled as a step function on
  an explicit session state, driven by the wall-clock times at which the
  Python `while` loop iterates (Python floats are modelled as rationals);
* the command encoders `_send_cmd_water` / `_send_cmd_track`;
* the serial write wrapper `_serial_write_line`;
* the moisture telemetry parser (`_parse_kv_line`, `_read_moisture_snapshot`);
* the per-frame snapshot publication in `run_camera` (clear + per-tag insert,
  each under its own lock acquisition), modelled as a sequence of atomic
  critical sections with the states a reader can observe between them;
* the Euler decomposition `_rvec_to_euler_xyz`, over the reals.
-/

namespace PlantHopper

/-- One entry of the shared `latest_detections` map: the dict stored per tag in
`run_camera` (`tvec` components, roll/pitch/yaw in degrees, distance). -/
structure Pose where
  tvec0 : ℚ
  tvec1 : ℚ
  tvec2 : ℚ
  roll : ℚ
  pitch : ℚ
  yaw : ℚ
  distance : ℚ
  deriving DecidableEq

/-- Argument record of one `_send_cmd_water` call (a WATER command intent). -/
structure WaterCmd where
  found : Bool
  dx : ℚ
  dz : ℚ
  pitch : ℚ
  sweep : Option ℚ
  deriving DecidableEq

/-- The per-request parameters of `water_worker`
(`send_hz`, `scan_seconds`, `fire_seconds`, `default_pitch`). -/
structure WaterParams where
  sendHz : ℚ
  scanSeconds : ℚ
  fireSeconds : ℚ
  defaultPitch : ℚ
  deriving DecidableEq

/-- `dt = 1.0 / max(hz, 1e-6)`, the tick period guard used both by
`water_worker` (line 290) and the TRACK loop (line 421). -/
def rateDt (hz : ℚ) : ℚ := 1 / max hz (1 / 1000000)

/-- Mutable local state of one `water_worker` invocation:
`scan_end`, `fire_end`, `last_pitch_deg`, `last_dz_m`, `success`, `next_send`.
`fire_end = none` is the SCAN phase, `fire_end = some fe` the FIRE phase. -/
structure WaterState where
  scanEnd : ℚ
  fireEnd : Option ℚ
  lastPitch : ℚ
  lastDz : ℚ
  success : Bool
  nextSend : ℚ
  deriving DecidableEq

/-- `_serial_write_line`: the underlying `ser.write` outcome is the argument;
an exception is caught, logged and turned into `false` (never re-raised). -/
def serialWriteLine (w : Except String Unit) : Bool :=
  match w with
  | Except.ok _ => true
  | Except.error _ => false

/-- Result of one iteration of the `while running:` loop body of
`water_worker`: the updated state, the command emitted this iteration (if
any, paired with the serial-write result), and whether the loop breaks. -/
structure StepResult where
  state : WaterState
  emit : Option (WaterCmd × Bool)
  brk : Bool
  deriving DecidableEq

/-- The SCAN-phase miss intent (main.py lines 317-319): `found=false`,
`dx=0.0`, the last dz and pitch, and the remaining scan time as sweep hint. -/
def scanMissCmd (s : WaterState) (now : ℚ) : WaterCmd :=
  { found := false, dx := 0, dz := s.lastDz, pitch := s.lastPitch,
    sweep := some (max 0 (s.scanEnd - now)) }

/-- The intent emitted when the target pose is visible (main.py lines
322-329 and 340-345): `found=true` with the pose's dx, dz, pitch. -/
def fireHitCmd (q : Pose) : WaterCmd :=
  { found := true, dx := q.tvec0, dz := q.tvec2, pitch := q.pitch, sweep := some 0 }

/-- The FIRE-phase intent when the target pose is momentarily absent
(main.py lines 336-338): `found=true`, `dx=0.0`, the last dz and pitch. -/
def fireGapCmd (s : WaterState) : WaterCmd :=
  { found := true, dx := 0, dz := s.lastDz, pitch := s.lastPitch, sweep := some 0 }

/-- The `if now >= next_send:` emission block of the loop body (main.py lines
310-346): in SCAN, either the miss intent or the transition to FIRE; in FIRE,
either the gap intent or a fresh-pose intent; in all four branches
`next_send += dt`.  Returns the updated state and the emitted command (if
any) paired with the serial-write result. -/
def waterEmit (p : WaterParams) (s : WaterState) (now : ℚ) (pose : Option Pose)
    (w : Except String Unit) : WaterState × Option (WaterCmd × Bool) :=
  if s.nextSend ≤ now then
    match s.fireEnd with
    | none =>
      match pose with
      | none =>
        ({ s with nextSend := s.nextSend + rateDt p.sendHz },
          some (scanMissCmd s now, serialWriteLine w))
      | some q =>
        ({ s with lastPitch := q.pitch, lastDz := q.tvec2,
                  fireEnd := some (now + max 0 p.fireSeconds),
                  nextSend := s.nextSend + rateDt p.sendHz },
          some (fireHitCmd q, serialWriteLine w))
    | some _ =>
      match pose with
      | none =>
        ({ s with nextSend := s.nextSend + rateDt p.sendHz },
          some (fireGapCmd s, serialWriteLine w))
      | some q =>
        ({ s with lastPitch := q.pitch, lastDz := q.tvec2,
                  nextSend := s.nextSend + rateDt p.sendHz },
          some (fireHitCmd q, serialWriteLine w))
  else (s, none)

/-- The fire-window completion check at the end of the loop body (main.py
lines 349-352): if the (possibly just-set) `fire_end` has passed, set
`success` and break. -/
def fireCheck (now : ℚ) (es : WaterState × Option (WaterCmd × Bool)) : StepResult :=
  match es.1.fireEnd with
  | some fe => if fe ≤ now then ⟨{ es.1 with success := true }, es.2, true⟩
               else ⟨es.1, es.2, false⟩
  | none => ⟨es.1, es.2, false⟩

/-- One iteration of the `water_worker` loop body (main.py lines 301-354) at
wall-clock time `now`, where `pose` is the `latest_detections` entry for the
target tag and `w` is the outcome of the serial write, should one happen.
Mirrors the Python control flow: scan-timeout break first, then the
`now >= next_send` emission block, then the fire-window completion check on
the updated `fire_end`. -/
def waterStep (p : WaterParams) (s : WaterState) (now : ℚ) (pose : Option Pose)
    (w : Except String Unit) : StepResult :=
  if s.fireEnd = none ∧ s.scanEnd ≤ now then ⟨s, none, true⟩
  else fireCheck now (waterEmit p s now pose w)

/-- Result of running the `water_worker` loop: final state, the emitted
commands (time-stamped, with serial-write results), and the wall-clock time of
the iteration that broke the loop (`none` if the loop ended because `running`
was cleared / the supplied iteration times ran out). -/
structure RunResult where
  final : WaterState
  lines : List (ℚ × WaterCmd × Bool)
  exitAt : Option ℚ
  deriving DecidableEq

/-- Time-stamp an iteration's emitted command (if any). -/
def stampEmit (t : ℚ) : Option (WaterCmd × Bool) → List (ℚ × WaterCmd × Bool)
  | none => []
  | some cb => [(t, cb)]

/-- Run the `water_worker` loop over the (increasing) wall-clock times `ts` at
which successive iterations observe `time.time()`.  `det t` is the
`latest_detections` entry for the target tag at time `t`, and `wr t` the
outcome of a serial write performed at time `t`. -/
def waterRun (p : WaterParams) (det : ℚ → Option Pose) (wr : ℚ → Except String Unit) :
    List ℚ → WaterState → RunResult
  | [], s => ⟨s, [], none⟩
  | t :: ts, s =>
    let r := waterStep p s t (det t) (wr t)
    if r.brk then ⟨r.state, stampEmit t r.emit, some t⟩
    else
      let rest := waterRun p det wr ts r.state
      ⟨rest.final, stampEmit t r.emit ++ rest.lines, rest.exitAt⟩

/-- Initial state of `water_worker` started at wall-clock time `t0`
(main.py lines 290-298; the two nearby `time.time()` calls that anchor
`scan_end` and `next_send` are modelled as the same instant `t0`). -/
def initWaterState (p : WaterParams) (t0 : ℚ) : WaterState :=
  { scanEnd := t0 + max 0 p.scanSeconds
    fireEnd := none
    lastPitch := p.defaultPitch
    lastDz := 0
    success := false
    nextSend := t0 }

/-- The single Firestore terminal report written after the loop
(main.py lines 356-368): success or failure. -/
structure WaterReport where
  success : Bool
  deriving DecidableEq

/-- A whole `water_worker` session: run the loop from the initial state, then
emit exactly one terminal report carrying the final `success` flag. -/
def waterWorker (p : WaterParams) (det : ℚ → Option Pose)
    (wr : ℚ → Except String Unit) (t0 : ℚ) (ts : List ℚ) :
    RunResult × List WaterReport :=
  let r := waterRun p det wr ts (initWaterState p t0)
  (r, [{ success := r.final.success }])

/-- `n + 1` equally spaced wall-clock instants `t, t + d, …, t + n·d`:
an idealised schedule of loop-iteration times. -/
def gridTimes (t d : ℚ) : ℕ → List ℚ
  | 0 => []
  | n + 1 => t :: gridTimes (t + d) d n

/-! ### Command encoding (`_send_cmd_water`, `_send_cmd_track`) -/

/-- `str(b).lower()` — the boolean token of the wire grammar. -/
def fmtBool (b : Bool) : String := if b then "true" else "false"

/-- Python `round()` on a rational: nearest integer, ties to even. -/
def pyRound (q : ℚ) : ℤ :=
  let f := ⌊q⌋
  let r := q - f
  if r < 1 / 2 then f
  else if 1 / 2 < r then f + 1
  else if f % 2 = 0 then f else f + 1

/-- Three decimal digits of `k`, zero padded (used for `k < 1000`). -/
def pad3 (k : ℕ) : String :=
  ⟨[Nat.digitChar (k / 100 % 10), Nat.digitChar (k / 10 % 10), Nat.digitChar (k % 10)]⟩

/-- Python `f"{x:.3f}"` on a rational: optional sign, integer part, a point
and exactly three decimal digits, the magnitude rounded to the nearest
thousandth (ties to even, as CPython rounds the exact value). -/
def fmt3 (q : ℚ) : String :=
  let n : ℕ := (pyRound (|q| * 1000)).toNat
  (if q < 0 then "-" else "") ++ toString (n / 1000) ++ "." ++ pad3 (n % 1000)

/-- `";".join(parts)`. -/
def joinSemi : List String → String
  | [] => ""
  | [s] => s
  | s :: rest => s ++ ";" ++ joinSemi rest

/-- The line built by `_send_cmd_water` (main.py lines 57-76):
`cmd:WATER;found:…;dx:…;dz:…;pitch:…;[sweep:…;]` followed by `;\n`
(the sweep field is `int(round(max(0.0, sweep)))` when present). -/
def encodeWater (found : Bool) (dx dz pitch : ℚ) (sweep : Option ℚ) : String :=
  let parts := ["cmd:WATER", "found:" ++ fmtBool found, "dx:" ++ fmt3 dx,
                "dz:" ++ fmt3 dz, "pitch:" ++ toString (pyRound pitch)] ++
    (match sweep with
     | none => []
     | some s => ["sweep:" ++ toString (pyRound (max 0 s))])
  joinSemi parts ++ ";\n"

/-- The line built by `_send_cmd_track` (main.py lines 79-93):
`cmd:TRACK;id:…;found:…;dx:…;pitch:…;shoot:…` followed by `\n`. -/
def encodeTrack (tagId : ℤ) (found : Bool) (dx pitch : ℚ) (shoot : Bool) : String :=
  "cmd:TRACK;" ++ ("id:" ++ toString tagId ++ ";" ++ ("found:" ++ fmtBool found ++ ";" ++
    ("dx:" ++ fmt3 dx ++ ";" ++ ("pitch:" ++ toString (pyRound pitch) ++ ";" ++
      ("shoot:" ++ fmtBool shoot ++ "\n")))))

/-- Encoding of a structured WATER command intent. -/
def encodeWaterCmd (c : WaterCmd) : String :=
  encodeWater c.found c.dx c.dz c.pitch c.sweep

/-! ### Shared association maps (Python dicts) -/

/-- Python dict assignment `d[k] = v` on an insertion-ordered association
list: replace in place if the key is present, else append. -/
def assocSet {α β : Type} [DecidableEq α] : List (α × β) → α → β → List (α × β)
  | [], k, v => [(k, v)]
  | (k', v') :: rest, k, v =>
    if k' = k then (k, v) :: rest else (k', v') :: assocSet rest k v

/-- Python `d.get(k)`. -/
def assocGet {α β : Type} [BEq α] (m : List (α × β)) (k : α) : Option β :=
  (m.find? (fun e => e.1 == k)).map (fun e => e.2)

/-! ### Snapshot publication in `run_camera` (lines 557-574)

Each frame, the camera loop clears the shared `latest_detections` dict inside
one `with _detection_lock:` block, then inserts each detected tag's pose
inside its own `with _detection_lock:` block.  Each lock-protected block is
one atomic mutation; a concurrent reader (`water_worker`) can acquire the
lock before, between, or after these blocks. -/

/-- The sequence of atomic mutations one frame applies to the shared map. -/
def publishMutations (dets : List (ℤ × Pose)) :
    List (List (ℤ × Pose) → List (ℤ × Pose)) :=
  (fun _ => []) :: dets.map (fun kv m => assocSet m kv.1 kv.2)

/-- All states of the shared map a reader can observe around one frame's
publication: before any mutation, between any two, or after the last. -/
def observableSnapshots (old : List (ℤ × Pose)) (dets : List (ℤ × Pose)) :
    List (List (ℤ × Pose)) :=
  List.scanl (fun m f => f m) old (publishMutations dets)

/-- The complete new snapshot: the shared map after all of this frame's
mutations have been applied. -/
def newSnapshot (dets : List (ℤ × Pose)) : List (ℤ × Pose) :=
  dets.foldl (fun m kv => assocSet m kv.1 kv.2) []

/-! ### Moisture telemetry (`_parse_kv_line`, `_read_moisture_snapshot`) -/

/-- Python `str.strip()` whitespace test, for the characters the firmware can
emit around a field. -/
def isPySpace (c : Char) : Bool := c = ' ' || c = '\t' || c = '\n' || c = '\r'

/-- Python `str.strip()`. -/
def trimChars (l : List Char) : List Char :=
  ((l.dropWhile isPySpace).reverse.dropWhile isPySpace).reverse

/-- ASCII `str.lower()` on one character (sensor labels are ASCII). -/
def lowerChar (c : Char) : Char :=
  if 'A' ≤ c ∧ c ≤ 'Z' then Char.ofNat (c.toNat + 32) else c

/-- ASCII `str.upper()` on one character. -/
def upperChar (c : Char) : Char :=
  if 'a' ≤ c ∧ c ≤ 'z' then Char.ofNat (c.toNat - 32) else c

/-- Python `str.lower()`, ASCII fragment. -/
def lowerChars (l : List Char) : List Char := l.map lowerChar

/-- Python `str.upper()`, ASCII fragment. -/
def upperChars (l : List Char) : List Char := l.map upperChar

/-- Python `str.split(sep)` (all occurrences). -/
def splitOnChar (sep : Char) : List Char → List (List Char)
  | [] => [[]]
  | c :: rest =>
    match splitOnChar sep rest with
    | [] => [[]]
    | grp :: grps => if c = sep then [] :: grp :: grps else (c :: grp) :: grps

/-- Python `str.split(sep, 1)` when `sep` occurs (`none` when it does not,
the `":" in part` test). -/
def splitFirst (sep : Char) : List Char → Option (List Char × List Char)
  | [] => none
  | c :: rest =>
    if c = sep then some ([], rest)
    else (splitFirst sep rest).map (fun pr => (c :: pr.1, pr.2))

/-- `_parse_kv_line` (main.py lines 98-108): split the line on `;`, strip each
part, skip blank parts and parts without `:`, split the rest at the first
`:`, and store stripped-lowercased key ↦ stripped value in a dict. -/
def parseKvLine (line : List Char) : List (List Char × List Char) :=
  (splitOnChar ';' line).foldl
    (fun kv part =>
      let part := trimChars part
      if part = [] then kv
      else
        match splitFirst ':' part with
        | none => kv
        | some pr => assocSet kv (lowerChars (trimChars pr.1)) (trimChars pr.2))
    []

/-- Value of one decimal digit. -/
def digitVal (c : Char) : Option ℕ :=
  if '0' ≤ c ∧ c ≤ '9' then some (c.toNat - '0'.toNat) else none

/-- Accumulate the value of a digit string; `none` on a non-digit. -/
def digitsValAux : List Char → ℕ → Option ℕ
  | [], acc => some acc
  | c :: rest, acc =>
    match digitVal c with
    | none => none
    | some d => digitsValAux rest (acc * 10 + d)

/-- Value of a non-empty digit string. -/
def digitsVal (l : List Char) : Option ℕ :=
  if l = [] then none else digitsValAux l 0

/-- Unsigned decimal literal: digits with an optional point (`"60"`, `"0.6"`,
`"6."`, `".6"`). -/
def parseUnsigned (s : List Char) : Option ℚ :=
  match splitFirst '.' s with
  | none => (digitsVal s).map (fun n => (n : ℚ))
  | some pr =>
    if pr.1 = [] ∧ pr.2 = [] then none
    else
      match (if pr.1 = [] then some 0 else digitsVal pr.1),
            (if pr.2 = [] then some 0 else digitsVal pr.2) with
      | some i, some f => some ((i : ℚ) + (f : ℚ) / (10 : ℚ) ^ pr.2.length)
      | _, _ => none

/-- Python `float()` restricted to the plain decimal forms the firmware emits
(optional sign, digits, optional decimal point); exponent and `inf`/`nan`
forms are not modelled. -/
def parseDecimal (s : List Char) : Option ℚ :=
  match trimChars s with
  | '-' :: rest => (parseUnsigned rest).map Neg.neg
  | '+' :: rest => parseUnsigned rest
  | rest => parseUnsigned rest

/-- One iteration of the `_read_moisture_snapshot` read loop body (main.py
lines 119-147) on a decoded serial line `raw`: parse the key:value pairs,
require `cmd` to be `MOISTURE` (case-insensitively), require non-empty `id`
and `percent` fields, parse the percent as a float, normalise values
greater than 1 from the 0–100 scale to 0–1, and store the reading under the
stripped, lowercased sensor label. -/
def moistureLineStep (data : List (List Char × ℚ)) (raw : List Char) :
    List (List Char × ℚ) :=
  let kv := parseKvLine raw
  if kv = [] then data
  else if upperChars ((assocGet kv "cmd".data).getD []) ≠ "MOISTURE".data then data
  else
    let label := (assocGet kv "id".data).getD []
    let pcts := (assocGet kv "percent".data).getD []
    if label = [] then data
    else if pcts = [] then data
    else
      match parseDecimal pcts with
      | none => data
      | some pct =>
        let pct := if 1 < pct then pct / 100 else pct
        assocSet data (lowerChars (trimChars label)) pct

/-! ### Euler decomposition (`_rvec_to_euler_xyz`) -/

/-- A 3×3 matrix by entries, row-column indexed as in the NumPy code
(`aij` is `R[i, j]`). -/
structure Mat3 where
  a00 : ℝ
  a01 : ℝ
  a02 : ℝ
  a10 : ℝ
  a11 : ℝ
  a12 : ℝ
  a20 : ℝ
  a21 : ℝ
  a22 : ℝ

/-- `np.arctan2 y x`: the argument of the point `(x, y)`, in `(-π, π]`. -/
noncomputable def atan2 (y x : ℝ) : ℝ := Complex.arg ⟨x, y⟩

/-- `sy = np.sqrt(R[0,0]**2 + R[1,0]**2)` of `_rvec_to_euler_xyz`. -/
noncomputable def eulerSy (R : Mat3) : ℝ := Real.sqrt (R.a00 ^ 2 + R.a10 ^ 2)

/-- `_rvec_to_euler_xyz` (apriltag_detector.py lines 65-80, identical to
`rvec_to_euler_xyz` in CV/april_tag_detection.py lines 21-38), applied to the
rotation matrix produced by `cv2.Rodrigues`: returns `(roll, pitch, yaw)` in
radians, using the gimbal-lock branch when `sy < 1e-6`. -/
noncomputable def rmatToEulerXYZ (R : Mat3) : ℝ × ℝ × ℝ :=
  if eulerSy R < 1 / 1000000 then
    (atan2 (-R.a12) R.a11, atan2 (-R.a20) (eulerSy R), 0)
  else
    (atan2 R.a21 R.a22, atan2 (-R.a20) (eulerSy R), atan2 R.a10 R.a00)

/-- Matrix product. -/
def matMul (A B : Mat3) : Mat3 :=
  ⟨A.a00 * B.a00 + A.a01 * B.a10 + A.a02 * B.a20,
   A.a00 * B.a01 + A.a01 * B.a11 + A.a02 * B.a21,
   A.a00 * B.a02 + A.a01 * B.a12 + A.a02 * B.a22,
   A.a10 * B.a00 + A.a11 * B.a10 + A.a12 * B.a20,
   A.a10 * B.a01 + A.a11 * B.a11 + A.a12 * B.a21,
   A.a10 * B.a02 + A.a11 * B.a12 + A.a12 * B.a22,
   A.a20 * B.a00 + A.a21 * B.a10 + A.a22 * B.a20,
   A.a20 * B.a01 + A.a21 * B.a11 + A.a22 * B.a21,
   A.a20 * B.a02 + A.a21 * B.a12 + A.a22 * B.a22⟩

/-- Rotation about the X axis. -/
noncomputable def rotX (a : ℝ) : Mat3 :=
  ⟨1, 0, 0, 0, Real.cos a, -Real.sin a, 0, Real.sin a, Real.cos a⟩

/-- Rotation about the Y axis. -/
noncomputable def rotY (a : ℝ) : Mat3 :=
  ⟨Real.cos a, 0, Real.sin a, 0, 1, 0, -Real.sin a, 0, Real.cos a⟩

/-- Rotation about the Z axis. -/
noncomputable def rotZ (a : ℝ) : Mat3 :=
  ⟨Real.cos a, -Real.sin a, 0, Real.sin a, Real.cos a, 0, 0, 0, 1⟩

/-- A rotation built from chosen Euler angles in the convention decoded by
`_rvec_to_euler_xyz`: intrinsic X→Y→Z, i.e. `R = Rz(yaw)·Ry(pitch)·Rx(roll)`
(the construction used by the spec's round-trip property). -/
noncomputable def eulerToRmat (roll pitch yaw : ℝ) : Mat3 :=
  matMul (rotZ yaw) (matMul (rotY pitch) (rotX roll))

/-! ## Helper lemmas -/

theorem mem_scanl_self {α β : Type} (f : β → α → β) (b : β) (l : List α) :
    b ∈ List.scanl f b l := by
  cases l <;> simp [List.scanl]

theorem mem_scanl_foldl {α β : Type} (f : β → α → β) :
    ∀ (l : List α) (b s : β), s ∈ List.scanl f b l →
      ∃ k ≤ l.length, s = (l.take k).foldl f b := by
  intro l
  induction l with
  | nil =>
    intro b s h
    simp [List.scanl] at h
    exact ⟨0, by simp, by simp [h]⟩
  | cons a l ih =>
    intro b s h
    rw [List.scanl_cons] at h
    rcases List.mem_append.mp h with h | h
    · simp at h
      exact ⟨0, by simp, by simp [h]⟩
    · rcases ih (f b a) s h with ⟨k, hk, hs⟩
      refine ⟨k + 1, by simpa using hk, ?_⟩
      simpa using hs

theorem fireCheck_none {s1 : WaterState} {now : ℚ} {em : Option (WaterCmd × Bool)}
    (h : s1.fireEnd = none) : fireCheck now (s1, em) = ⟨s1, em, false⟩ := by
  simp [fireCheck, h]

theorem fireCheck_cont {s1 : WaterState} {now fe : ℚ} {em : Option (WaterCmd × Bool)}
    (h : s1.fireEnd = some fe) (hlt : ¬ fe ≤ now) :
    fireCheck now (s1, em) = ⟨s1, em, false⟩ := by
  simp [fireCheck, h, hlt]

theorem fireCheck_done {s1 : WaterState} {now fe : ℚ} {em : Option (WaterCmd × Bool)}
    (h : s1.fireEnd = some fe) (hle : fe ≤ now) :
    fireCheck now (s1, em) = ⟨{ s1 with success := true }, em, true⟩ := by
  simp [fireCheck, h, hle]

theorem waterEmit_idle {p : WaterParams} {s : WaterState} {now : ℚ}
    (pose : Option Pose) (w : Except String Unit) (hns : ¬ s.nextSend ≤ now) :
    waterEmit p s now pose w = (s, none) := by
  unfold waterEmit
  rw [if_neg hns]

theorem waterEmit_scan_miss {p : WaterParams} {s : WaterState} {now : ℚ}
    (w : Except String Unit) (hfe : s.fireEnd = none) (hns : s.nextSend ≤ now) :
    waterEmit p s now none w =
      ({ s with nextSend := s.nextSend + rateDt p.sendHz },
        some (scanMissCmd s now, serialWriteLine w)) := by
  unfold waterEmit
  rw [if_pos hns, hfe]

theorem waterEmit_scan_hit {p : WaterParams} {s : WaterState} {now : ℚ} {q : Pose}
    (w : Except String Unit) (hfe : s.fireEnd = none) (hns : s.nextSend ≤ now) :
    waterEmit p s now (some q) w =
      ({ s with lastPitch := q.pitch, lastDz := q.tvec2,
                fireEnd := some (now + max 0 p.fireSeconds),
                nextSend := s.nextSend + rateDt p.sendHz },
        some (fireHitCmd q, serialWriteLine w)) := by
  unfold waterEmit
  rw [if_pos hns, hfe]

theorem waterEmit_fire_gap {p : WaterParams} {s : WaterState} {now fe : ℚ}
    (w : Except String Unit) (hfe : s.fireEnd = some fe) (hns : s.nextSend ≤ now) :
    waterEmit p s now none w =
      ({ s with nextSend := s.nextSend + rateDt p.sendHz },
        some (fireGapCmd s, serialWriteLine w)) := by
  unfold waterEmit
  rw [if_pos hns, hfe]

theorem waterEmit_fire_hit {p : WaterParams} {s : WaterState} {now fe : ℚ} {q : Pose}
    (w : Except String Unit) (hfe : s.fireEnd = some fe) (hns : s.nextSend ≤ now) :
    waterEmit p s now (some q) w =
      ({ s with lastPitch := q.pitch, lastDz := q.tvec2,
                nextSend := s.nextSend + rateDt p.sendHz },
        some (fireHitCmd q, serialWriteLine w)) := by
  unfold waterEmit
  rw [if_pos hns, hfe]

theorem waterStep_scan_timeout {p : WaterParams} {s : WaterState} {now : ℚ}
    (pose : Option Pose) (w : Except String Unit)
    (hfe : s.fireEnd = none) (hsc : s.scanEnd ≤ now) :
    waterStep p s now pose w = ⟨s, none, true⟩ := by
  unfold waterStep
  rw [if_pos ⟨hfe, hsc⟩]

theorem waterStep_scan_idle {p : WaterParams} {s : WaterState} {now : ℚ}
    (pose : Option Pose) (w : Except String Unit)
    (hfe : s.fireEnd = none) (hsc : ¬ s.scanEnd ≤ now) (hns : ¬ s.nextSend ≤ now) :
    waterStep p s now pose w = ⟨s, none, false⟩ := by
  unfold waterStep
  rw [if_neg (fun hc => hsc hc.2), waterEmit_idle pose w hns, fireCheck_none hfe]

theorem waterStep_scan_miss {p : WaterParams} {s : WaterState} {now : ℚ}
    (w : Except String Unit)
    (hfe : s.fireEnd = none) (hsc : ¬ s.scanEnd ≤ now) (hns : s.nextSend ≤ now) :
    waterStep p s now none w =
      ⟨{ s with nextSend := s.nextSend + rateDt p.sendHz },
        some (scanMissCmd s now, serialWriteLine w), false⟩ := by
  unfold waterStep
  rw [if_neg (fun hc => hsc hc.2), waterEmit_scan_miss w hfe hns]
  exact fireCheck_none hfe

theorem waterStep_scan_hit_cont {p : WaterParams} {s : WaterState} {now : ℚ} {q : Pose}
    (w : Except String Unit)
    (hfe : s.fireEnd = none) (hsc : ¬ s.scanEnd ≤ now) (hns : s.nextSend ≤ now)
    (hcont : ¬ now + max 0 p.fireSeconds ≤ now) :
    waterStep p s now (some q) w =
      ⟨{ s with lastPitch := q.pitch, lastDz := q.tvec2,
                fireEnd := some (now + max 0 p.fireSeconds),
                nextSend := s.nextSend + rateDt p.sendHz },
        some (fireHitCmd q, serialWriteLine w), false⟩ := by
  unfold waterStep
  rw [if_neg (fun hc => hsc hc.2), waterEmit_scan_hit w hfe hns]
  exact fireCheck_cont rfl hcont

theorem waterStep_scan_hit_done {p : WaterParams} {s : WaterState} {now : ℚ} {q : Pose}
    (w : Except String Unit)
    (hfe : s.fireEnd = none) (hsc : ¬ s.scanEnd ≤ now) (hns : s.nextSend ≤ now)
    (hdone : now + max 0 p.fireSeconds ≤ now) :
    waterStep p s now (some q) w =
      ⟨{ s with lastPitch := q.pitch, lastDz := q.tvec2,
                fireEnd := some (now + max 0 p.fireSeconds),
                nextSend := s.nextSend + rateDt p.sendHz, success := true },
        some (fireHitCmd q, serialWriteLine w), true⟩ := by
  unfold waterStep
  rw [if_neg (fun hc => hsc hc.2), waterEmit_scan_hit w hfe hns]
  exact fireCheck_done rfl hdone

theorem waterStep_fire_idle_cont {p : WaterParams} {s : WaterState} {now fe : ℚ}
    (pose : Option Pose) (w : Except String Unit)
    (hfe : s.fireEnd = some fe) (hns : ¬ s.nextSend ≤ now) (hcont : ¬ fe ≤ now) :
    waterStep p s now pose w = ⟨s, none, false⟩ := by
  unfold waterStep
  rw [if_neg (fun hc => by rw [hfe] at hc; exact Option.noConfusion hc.1),
    waterEmit_idle pose w hns, fireCheck_cont hfe hcont]

theorem waterStep_fire_idle_done {p : WaterParams} {s : WaterState} {now fe : ℚ}
    (pose : Option Pose) (w : Except String Unit)
    (hfe : s.fireEnd = some fe) (hns : ¬ s.nextSend ≤ now) (hdone : fe ≤ now) :
    waterStep p s now pose w = ⟨{ s with success := true }, none, true⟩ := by
  unfold waterStep
  rw [if_neg (fun hc => by rw [hfe] at hc; exact Option.noConfusion hc.1),
    waterEmit_idle pose w hns, fireCheck_done hfe hdone]

theorem waterStep_fire_gap_cont {p : WaterParams} {s : WaterState} {now fe : ℚ}
    (w : Except String Unit)
    (hfe : s.fireEnd = some fe) (hns : s.nextSend ≤ now) (hcont : ¬ fe ≤ now) :
    waterStep p s now none w =
      ⟨{ s with nextSend := s.nextSend + rateDt p.sendHz },
        some (fireGapCmd s, serialWriteLine w), false⟩ := by
  unfold waterStep
  rw [if_neg (fun hc => by rw [hfe] at hc; exact Option.noConfusion hc.1),
    waterEmit_fire_gap w hfe hns]
  exact fireCheck_cont hfe hcont

theorem waterStep_fire_gap_done {p : WaterParams} {s : WaterState} {now fe : ℚ}
    (w : Except String Unit)
    (hfe : s.fireEnd = some fe) (hns : s.nextSend ≤ now) (hdone : fe ≤ now) :
    waterStep p s now none w =
      ⟨{ s with nextSend := s.nextSend + rateDt p.sendHz, success := true },
        some (fireGapCmd s, serialWriteLine w), true⟩ := by
  unfold waterStep
  rw [if_neg (fun hc => by rw [hfe] at hc; exact Option.noConfusion hc.1),
    waterEmit_fire_gap w hfe hns]
  exact fireCheck_done hfe hdone

theorem waterStep_fire_hit_cont {p : WaterParams} {s : WaterState} {now fe : ℚ} {q : Pose}
    (w : Except String Unit)
    (hfe : s.fireEnd = some fe) (hns : s.nextSend ≤ now) (hcont : ¬ fe ≤ now) :
    waterStep p s now (some q) w =
      ⟨{ s with lastPitch := q.pitch, lastDz := q.tvec2,
                nextSend := s.nextSend + rateDt p.sendHz },
        some (fireHitCmd q, serialWriteLine w), false⟩ := by
  unfold waterStep
  rw [if_neg (fun hc => by rw [hfe] at hc; exact Option.noConfusion hc.1),
    waterEmit_fire_hit w hfe hns]
  exact fireCheck_cont hfe hcont

theorem waterStep_fire_hit_done {p : WaterParams} {s : WaterState} {now fe : ℚ} {q : Pose}
    (w : Except String Unit)
    (hfe : s.fireEnd = some fe) (hns : s.nextSend ≤ now) (hdone : fe ≤ now) :
    waterStep p s now (some q) w =
      ⟨{ s with lastPitch := q.pitch, lastDz := q.tvec2,
                nextSend := s.nextSend + rateDt p.sendHz, success := true },
        some (fireHitCmd q, serialWriteLine w), true⟩ := by
  unfold waterStep
  rw [if_neg (fun hc => by rw [hfe] at hc; exact Option.noConfusion hc.1),
    waterEmit_fire_hit w hfe hns]
  exact fireCheck_done hfe hdone

theorem waterRun_cons_brk {p : WaterParams} {det : ℚ → Option Pose}
    {wr : ℚ → Except String Unit} {t : ℚ} {ts : List ℚ} {s : WaterState}
    (h : (waterStep p s t (det t) (wr t)).brk = true) :
    waterRun p det wr (t :: ts) s =
      ⟨(waterStep p s t (det t) (wr t)).state,
        stampEmit t (waterStep p s t (det t) (wr t)).emit, some t⟩ := by
  simp [waterRun, h]

theorem waterRun_cons_cont {p : WaterParams} {det : ℚ → Option Pose}
    {wr : ℚ → Except String Unit} {t : ℚ} {ts : List ℚ} {s : WaterState}
    (h : (waterStep p s t (det t) (wr t)).brk = false) :
    waterRun p det wr (t :: ts) s =
      ⟨(waterRun p det wr ts (waterStep p s t (det t) (wr t)).state).final,
        stampEmit t (waterStep p s t (det t) (wr t)).emit ++
          (waterRun p det wr ts (waterStep p s t (det t) (wr t)).state).lines,
        (waterRun p det wr ts (waterStep p s t (det t) (wr t)).state).exitAt⟩ := by
  simp [waterRun, h]

/-! ## Claims -/

/-- C10: for every send rate, including a zero or negative one, the tick
period `dt = 1 / max(send_rate_hz, 1e-6)` used by the water worker and the
tracking loop has a strictly positive divisor (no division by zero) and is
itself strictly positive. -/
theorem spec_C10_tick_period_guard :
    ∀ hz : ℚ, 0 < max hz (1 / 1000000) ∧ 0 < rateDt hz := by
  intro hz
  have h : (0 : ℚ) < max hz (1 / 1000000) :=
    lt_of_lt_of_le (by norm_num) (le_max_right _ _)
  refine ⟨h, ?_⟩
  unfold rateDt
  exact div_pos one_pos h

/-- C4 counterexample: with the previous snapshot holding tag 1 and the new
frame re-detecting tag 1 with a different pose, a reader interleaved between
the publisher's critical sections (after the clear, before the re-insert)
observes the empty map, which is neither the previous complete snapshot nor
the new complete one.  This refutes the claim that every observable state is
one of the two complete snapshots. -/
theorem spec_C4_counterexample :
    ¬ (∀ s ∈ observableSnapshots [(1, ⟨1, 0, 0, 0, 0, 0, 1⟩)]
          [(1, ⟨2, 0, 0, 0, 0, 0, 2⟩)],
        s = [(1, (⟨1, 0, 0, 0, 0, 0, 1⟩ : Pose))] ∨
        s = newSnapshot [(1, ⟨2, 0, 0, 0, 0, 0, 2⟩)]) := by
  decide

/-- C4 (amended): publication is not a single atomic swap — the clear and
each per-tag insert run in separate critical sections.  A reader can observe
the cleared (empty) map between them, and every state it can observe is
either the previous snapshot or the result of applying a prefix of this
frame's insertions to the cleared map. -/
theorem spec_C4_observable_states (old dets : List (ℤ × Pose)) :
    [] ∈ observableSnapshots old dets ∧
    ∀ s ∈ observableSnapshots old dets,
      s = old ∨ ∃ k ≤ dets.length, s = newSnapshot (dets.take k) := by
  constructor
  · unfold observableSnapshots publishMutations
    rw [List.scanl_cons]
    exact List.mem_append.mpr (Or.inr (mem_scanl_self _ _ _))
  · intro s hs
    unfold observableSnapshots publishMutations at hs
    rw [List.scanl_cons] at hs
    rcases List.mem_append.mp hs with h | h
    · simp at h
      exact Or.inl h
    · rcases mem_scanl_foldl _ _ _ _ h with ⟨k, hk, hsk⟩
      refine Or.inr ⟨k, by simpa using hk, ?_⟩
      rw [hsk]
      unfold newSnapshot
      rw [← List.map_take, List.foldl_map]

/-- C4 witness: the amended characterisation applied at a concrete
interleaving: the cleared map is observable and is a prefix state. -/
theorem spec_C4_observable_states_witness :
    ([] : List (ℤ × Pose)) ∈
      observableSnapshots [(1, ⟨1, 0, 0, 0, 0, 0, 1⟩)] [(1, ⟨2, 0, 0, 0, 0, 0, 2⟩)] ∧
    (([] : List (ℤ × Pose)) = [(1, (⟨1, 0, 0, 0, 0, 0, 1⟩ : Pose))] ∨
      ∃ k ≤ ([(1, (⟨2, 0, 0, 0, 0, 0, 2⟩ : Pose))] : List (ℤ × Pose)).length,
        ([] : List (ℤ × Pose)) = newSnapshot ([(1, ⟨2, 0, 0, 0, 0, 0, 2⟩)].take k)) :=
  ⟨(spec_C4_observable_states [(1, ⟨1, 0, 0, 0, 0, 0, 1⟩)] [(1, ⟨2, 0, 0, 0, 0, 0, 2⟩)]).1,
   (spec_C4_observable_states [(1, ⟨1, 0, 0, 0, 0, 0, 1⟩)] [(1, ⟨2, 0, 0, 0, 0, 0, 2⟩)]).2
     [] (by decide)⟩

/-- C9: for every inbound line whose parsed key:value map carries
`cmd` equal (case-insensitively) to `MOISTURE`, a non-empty `id`, and a
non-empty `percent` field parsing as the float `pct`, the consumer stores
under the lowercased label the value `pct / 100` when `pct > 1` and `pct`
unchanged otherwise; for a raw reading within the 0–100 scale the stored
value lies in `[0, 1]`. -/
theorem spec_C9_moisture_normalize (data : List (List Char × ℚ)) (raw : List Char)
    (kv : List (List Char × List Char)) (c label pcts : List Char) (pct : ℚ)
    (hkv : parseKvLine raw = kv)
    (hc : assocGet kv "cmd".data = some c)
    (hcu : upperChars c = "MOISTURE".data)
    (hl : assocGet kv "id".data = some label) (hl0 : label ≠ [])
    (hp : assocGet kv "percent".data = some pcts) (hp0 : pcts ≠ [])
    (hpq : parseDecimal pcts = some pct) :
    moistureLineStep data raw =
      assocSet data (lowerChars (trimChars label)) (if 1 < pct then pct / 100 else pct) ∧
    (1 < pct → (if 1 < pct then pct / 100 else pct) = pct / 100) ∧
    (pct ≤ 1 → (if 1 < pct then pct / 100 else pct) = pct) ∧
    (0 ≤ pct → pct ≤ 100 →
      0 ≤ (if 1 < pct then pct / 100 else pct) ∧ (if 1 < pct then pct / 100 else pct) ≤ 1) := by
  have hkne : kv ≠ [] := by
    intro h
    rw [h] at hc
    simp [assocGet] at hc
  refine ⟨?_, ?_, ?_, ?_⟩
  · unfold moistureLineStep
    rw [hkv, if_neg hkne, hc, hl, hp]
    simp only [Option.getD_some]
    rw [if_neg (by simp [hcu]), if_neg hl0, if_neg hp0, hpq]
  · intro h
    rw [if_pos h]
  · intro h
    rw [if_neg (not_lt.mpr h)]
  · intro h0 h100
    by_cases h1 : 1 < pct
    · rw [if_pos h1]
      constructor
      · positivity
      · rw [div_le_one (by norm_num)]
        exact h100
    · rw [if_neg h1]
      exact ⟨h0, not_lt.mp h1⟩

/-- C9 witness: the telemetry line `cmd:MOISTURE;id:Sensor_3;percent:60`
stores `0.6` under `sensor_3`. -/
theorem spec_C9_witness :
    moistureLineStep [] "cmd:MOISTURE;id:Sensor_3;percent:60".data =
      assocSet [] (lowerChars (trimChars "Sensor_3".data))
        (if 1 < (60 : ℚ) then 60 / 100 else 60) :=
  (spec_C9_moisture_normalize [] _ _ "MOISTURE".data "Sensor_3".data "60".data 60
    rfl (by decide) (by decide) (by decide) (by decide) (by decide) (by decide)
    (by decide)).1

theorem digitChar_isDigit : ∀ d : ℕ, d < 10 → (Nat.digitChar d).isDigit = true := by
  decide

theorem pad3_shape (k : ℕ) :
    (pad3 k).length = 3 ∧ ∀ ch ∈ (pad3 k).data, ch.isDigit = true := by
  refine ⟨rfl, ?_⟩
  intro ch hch
  simp [pad3] at hch
  rcases hch with h | h | h <;> subst h <;>
    exact digitChar_isDigit _ (Nat.mod_lt _ (by norm_num))

/-- C6: the command encoding is deterministic and pure — equal WATER intents
encode to the same line; every WATER line ends with `;` then a newline;
every TRACK line ends with a newline; every boolean field renders as
lowercase `true`/`false`; the dx and dz fields are rendered by the
three-decimal formatter, whose output always has exactly three digit
characters after the point; and the pitch field is the integer obtained by
rounding. -/
theorem spec_C6_encoder (c : WaterCmd) (tagId : ℤ) (found : Bool) (dx pitch : ℚ)
    (shoot : Bool) :
    (∀ c' : WaterCmd, c = c' → encodeWaterCmd c = encodeWaterCmd c') ∧
    (∃ s, encodeWaterCmd c = s ++ ";\n") ∧
    (∃ s, encodeTrack tagId found dx pitch shoot = s ++ "\n") ∧
    (∀ b : Bool, fmtBool b = "true" ∨ fmtBool b = "false") ∧
    (∃ s t, encodeWaterCmd c = s ++ ("found:" ++ fmtBool c.found) ++ t) ∧
    (∃ s t, encodeWaterCmd c =
        s ++ ("dx:" ++ fmt3 c.dx ++ (";" ++ ("dz:" ++ fmt3 c.dz))) ++ t) ∧
    (∃ s t, encodeWaterCmd c = s ++ ("pitch:" ++ toString (pyRound c.pitch)) ++ t) ∧
    (∀ q : ℚ, ∃ s t, fmt3 q = s ++ "." ++ t ∧ t.length = 3 ∧
        ∀ ch ∈ t.data, ch.isDigit = true) := by
  obtain ⟨f, dxc, dzc, pc, sw⟩ := c
  refine ⟨fun c' h => by rw [h], ?_, ?_, by decide, ?_, ?_, ?_, ?_⟩
  · cases sw <;> exact ⟨_, rfl⟩
  · refine ⟨"cmd:TRACK;" ++ ("id:" ++ toString tagId ++ ";" ++
      ("found:" ++ fmtBool found ++ ";" ++ ("dx:" ++ fmt3 dx ++ ";" ++
        ("pitch:" ++ toString (pyRound pitch) ++ ";" ++
          ("shoot:" ++ fmtBool shoot))))), ?_⟩
    apply String.ext
    simp [encodeTrack, List.append_assoc]
  · cases sw with
    | none =>
      refine ⟨"cmd:WATER" ++ ";",
        ";" ++ ("dx:" ++ fmt3 dxc ++ ";" ++ ("dz:" ++ fmt3 dzc ++ ";" ++
          ("pitch:" ++ toString (pyRound pc)))) ++ ";\n", ?_⟩
      apply String.ext
      simp [encodeWaterCmd, encodeWater, joinSemi, List.append_assoc]
    | some s0 =>
      refine ⟨"cmd:WATER" ++ ";",
        ";" ++ ("dx:" ++ fmt3 dxc ++ ";" ++ ("dz:" ++ fmt3 dzc ++ ";" ++
          ("pitch:" ++ toString (pyRound pc) ++ ";" ++
            ("sweep:" ++ toString (pyRound (max 0 s0)))))) ++ ";\n", ?_⟩
      apply String.ext
      simp [encodeWaterCmd, encodeWater, joinSemi, List.append_assoc]
  · cases sw with
    | none =>
      refine ⟨"cmd:WATER" ++ ";" ++ ("found:" ++ fmtBool f) ++ ";",
        ";" ++ ("pitch:" ++ toString (pyRound pc)) ++ ";\n", ?_⟩
      apply String.ext
      simp [encodeWaterCmd, encodeWater, joinSemi, List.append_assoc]
    | some s0 =>
      refine ⟨"cmd:WATER" ++ ";" ++ ("found:" ++ fmtBool f) ++ ";",
        ";" ++ ("pitch:" ++ toString (pyRound pc) ++ ";" ++
          ("sweep:" ++ toString (pyRound (max 0 s0)))) ++ ";\n", ?_⟩
      apply String.ext
      simp [encodeWaterCmd, encodeWater, joinSemi, List.append_assoc]
  · cases sw with
    | none =>
      refine ⟨"cmd:WATER" ++ ";" ++ ("found:" ++ fmtBool f) ++ ";" ++
        ("dx:" ++ fmt3 dxc ++ ";" ++ ("dz:" ++ fmt3 dzc ++ ";")), ";\n", ?_⟩
      apply String.ext
      simp [encodeWaterCmd, encodeWater, joinSemi, List.append_assoc]
    | some s0 =>
      refine ⟨"cmd:WATER" ++ ";" ++ ("found:" ++ fmtBool f) ++ ";" ++
        ("dx:" ++ fmt3 dxc ++ ";" ++ ("dz:" ++ fmt3 dzc ++ ";")),
        ";" ++ ("sweep:" ++ toString (pyRound (max 0 s0))) ++ ";\n", ?_⟩
      apply String.ext
      simp [encodeWaterCmd, encodeWater, joinSemi, List.append_assoc]
  · intro q
    refine ⟨(if q < 0 then "-" else "") ++
      toString ((pyRound (|q| * 1000)).toNat / 1000),
      pad3 ((pyRound (|q| * 1000)).toNat % 1000), ?_, (pad3_shape _).1, (pad3_shape _).2⟩
    apply String.ext
    simp [fmt3, List.append_assoc]

/-- C6 witness: the claim theorem applied at a concrete WATER intent,
discharging the determinism hypothesis. -/
theorem spec_C6_witness :
    encodeWaterCmd ⟨true, 12 / 100, 3 / 10, 9, some 0⟩ =
      encodeWaterCmd ⟨true, 12 / 100, 3 / 10, 9, some 0⟩ ∧
    ∃ s, encodeWaterCmd ⟨true, 12 / 100, 3 / 10, 9, some 0⟩ = s ++ ";\n" :=
  ⟨(spec_C6_encoder ⟨true, 12 / 100, 3 / 10, 9, some 0⟩ 2 false 0 (5 / 2) true).1 _ rfl,
   (spec_C6_encoder ⟨true, 12 / 100, 3 / 10, 9, some 0⟩ 2 false 0 (5 / 2) true).2.1⟩

theorem atan2_mul_cos_sin {r θ : ℝ} (hr : 0 < r)
    (hθ : θ ∈ Set.Ioc (-Real.pi) Real.pi) :
    atan2 (r * Real.sin θ) (r * Real.cos θ) = θ := by
  unfold atan2
  have h1 : (⟨r * Real.cos θ, r * Real.sin θ⟩ : ℂ) =
      (r : ℂ) * ((Real.cos θ : ℂ) + (Real.sin θ : ℂ) * Complex.I) := by
    rw [Complex.mk_eq_add_mul_I]
    push_cast
    ring
  rw [h1, Complex.ofReal_cos, Complex.ofReal_sin]
  exact Complex.arg_mul_cos_add_sin_mul_I hr hθ

theorem atan2_zero_one : atan2 0 1 = 0 := by
  unfold atan2
  have h1 : (⟨1, 0⟩ : ℂ) = ((1 : ℝ) : ℂ) := by simp [Complex.ext_iff]
  rw [h1]
  exact Complex.arg_ofReal_of_nonneg (by norm_num)

theorem eulerToRmat_entries (roll pitch yaw : ℝ) :
    (eulerToRmat roll pitch yaw).a00 = Real.cos pitch * Real.cos yaw ∧
    (eulerToRmat roll pitch yaw).a10 = Real.cos pitch * Real.sin yaw ∧
    (eulerToRmat roll pitch yaw).a20 = -Real.sin pitch ∧
    (eulerToRmat roll pitch yaw).a21 = Real.cos pitch * Real.sin roll ∧
    (eulerToRmat roll pitch yaw).a22 = Real.cos pitch * Real.cos roll := by
  refine ⟨?_, ?_, ?_, ?_, ?_⟩ <;> (simp [eulerToRmat, matMul, rotX, rotY, rotZ]; try ring)

theorem eulerSy_eulerToRmat (roll pitch yaw : ℝ) (hc : 0 ≤ Real.cos pitch) :
    eulerSy (eulerToRmat roll pitch yaw) = Real.cos pitch := by
  obtain ⟨h00, h10, -, -, -⟩ := eulerToRmat_entries roll pitch yaw
  unfold eulerSy
  rw [h00, h10]
  have h : (Real.cos pitch * Real.cos yaw) ^ 2 + (Real.cos pitch * Real.sin yaw) ^ 2
      = Real.cos pitch ^ 2 := by
    have hs := Real.sin_sq_add_cos_sq yaw
    nlinarith [hs]
  rw [h, Real.sqrt_sq_eq_abs, abs_of_nonneg hc]

/-- C7 (amended): for angles in the principal ranges `roll, yaw ∈ (-π, π]`,
`pitch ∈ (-π/2, π/2)` whose constructed rotation has `sy ≥ 1e-6`, the decoder
recovers the angles exactly (hence within any epsilon); and for every matrix
in the gimbal-lock branch (`sy < 1e-6`) the decoded yaw is exactly 0. -/
theorem spec_C7_euler_roundtrip (roll pitch yaw : ℝ)
    (hr₁ : -Real.pi < roll) (hr₂ : roll ≤ Real.pi)
    (hp₁ : -(Real.pi / 2) < pitch) (hp₂ : pitch < Real.pi / 2)
    (hy₁ : -Real.pi < yaw) (hy₂ : yaw ≤ Real.pi)
    (hsy : 1 / 1000000 ≤ eulerSy (eulerToRmat roll pitch yaw)) :
    rmatToEulerXYZ (eulerToRmat roll pitch yaw) = (roll, pitch, yaw) ∧
    ∀ R : Mat3, eulerSy R < 1 / 1000000 → (rmatToEulerXYZ R).2.2 = 0 := by
  have hcos : 0 < Real.cos pitch := Real.cos_pos_of_mem_Ioo ⟨hp₁, hp₂⟩
  obtain ⟨h00, h10, h20, h21, h22⟩ := eulerToRmat_entries roll pitch yaw
  have hsy' : eulerSy (eulerToRmat roll pitch yaw) = Real.cos pitch :=
    eulerSy_eulerToRmat roll pitch yaw hcos.le
  constructor
  · have e1 : atan2 (eulerToRmat roll pitch yaw).a21
        (eulerToRmat roll pitch yaw).a22 = roll := by
      rw [h21, h22]
      exact atan2_mul_cos_sin hcos ⟨hr₁, hr₂⟩
    have e2 : atan2 (-(eulerToRmat roll pitch yaw).a20)
        (eulerSy (eulerToRmat roll pitch yaw)) = pitch := by
      rw [h20, hsy', neg_neg]
      have hmem : pitch ∈ Set.Ioc (-Real.pi) Real.pi :=
        ⟨by linarith [Real.pi_pos], by linarith [Real.pi_pos]⟩
      simpa using atan2_mul_cos_sin one_pos hmem
    have e3 : atan2 (eulerToRmat roll pitch yaw).a10
        (eulerToRmat roll pitch yaw).a00 = yaw := by
      rw [h10, h00]
      exact atan2_mul_cos_sin hcos ⟨hy₁, hy₂⟩
    unfold rmatToEulerXYZ
    rw [if_neg (not_lt.mpr hsy), e1, e2, e3]
  · intro R hR
    unfold rmatToEulerXYZ
    rw [if_pos hR]

/-- C7 counterexample: the rotation built from `(roll, pitch, yaw) =
(0, π, 0)` has `sy = 1 ≥ 1e-6`, yet the decoder returns pitch `0`,
which differs from the original pitch `π` by more than 1 — so decoding does
not recover the chosen angles within epsilon for every rotation with
`sy ≥ 1e-6`. -/
theorem spec_C7_counterexample :
    1 / 1000000 ≤ eulerSy (eulerToRmat 0 Real.pi 0) ∧
    (rmatToEulerXYZ (eulerToRmat 0 Real.pi 0)).2.1 = 0 ∧
    1 < |Real.pi - 0| := by
  obtain ⟨h00, h10, h20, -, -⟩ := eulerToRmat_entries 0 Real.pi 0
  have hsy : eulerSy (eulerToRmat 0 Real.pi 0) = 1 := by
    unfold eulerSy
    rw [h00, h10]
    simp [Real.cos_pi]
  refine ⟨by rw [hsy]; norm_num, ?_, ?_⟩
  · unfold rmatToEulerXYZ
    rw [if_neg (by rw [hsy]; norm_num)]
    simp only
    rw [h20, hsy]
    simp [atan2_zero_one]
  · rw [sub_zero, abs_of_pos Real.pi_pos]
    linarith [Real.pi_gt_three]

/-- C7 witness: the amended round-trip applied at `(0, 0, 0)`. -/
theorem spec_C7_witness :
    1 / 1000000 ≤ eulerSy (eulerToRmat 0 0 0) ∧
    rmatToEulerXYZ (eulerToRmat 0 0 0) = (0, 0, 0) := by
  have hsy : eulerSy (eulerToRmat 0 0 0) = 1 := by
    rw [eulerSy_eulerToRmat 0 0 0 (by rw [Real.cos_zero]; norm_num)]
    exact Real.cos_zero
  have hsy6 : 1 / 1000000 ≤ eulerSy (eulerToRmat 0 0 0) := by
    rw [hsy]; norm_num
  exact ⟨hsy6,
    (spec_C7_euler_roundtrip 0 0 0 (by linarith [Real.pi_pos]) Real.pi_pos.le
      (by linarith [Real.pi_pos]) (by linarith [Real.pi_pos])
      (by linarith [Real.pi_pos]) Real.pi_pos.le hsy6).1⟩

theorem waterStep_nextSend (p : WaterParams) (s : WaterState) (now : ℚ)
    (pose : Option Pose) (w : Except String Unit) :
    (waterStep p s now pose w).state.nextSend =
      s.nextSend +
        ((stampEmit now (waterStep p s now pose w).emit).length : ℚ) * rateDt p.sendHz := by
  by_cases hfe0 : s.fireEnd = none
  · by_cases hsc : s.scanEnd ≤ now
    · rw [waterStep_scan_timeout pose w hfe0 hsc]
      simp [stampEmit]
    · by_cases hns : s.nextSend ≤ now
      · cases pose with
        | none =>
          rw [waterStep_scan_miss w hfe0 hsc hns]
          simp [stampEmit]
        | some q =>
          by_cases hdone : now + max 0 p.fireSeconds ≤ now
          · rw [waterStep_scan_hit_done w hfe0 hsc hns hdone]
            simp [stampEmit]
          · rw [waterStep_scan_hit_cont w hfe0 hsc hns hdone]
            simp [stampEmit]
      · rw [waterStep_scan_idle pose w hfe0 hsc hns]
        simp [stampEmit]
  · obtain ⟨fe, hfe⟩ := Option.ne_none_iff_exists'.mp hfe0
    by_cases hns : s.nextSend ≤ now
    · cases pose with
      | none =>
        by_cases hdone : fe ≤ now
        · rw [waterStep_fire_gap_done w hfe hns hdone]
          simp [stampEmit]
        · rw [waterStep_fire_gap_cont w hfe hns hdone]
          simp [stampEmit]
      | some q =>
        by_cases hdone : fe ≤ now
        · rw [waterStep_fire_hit_done w hfe hns hdone]
          simp [stampEmit]
        · rw [waterStep_fire_hit_cont w hfe hns hdone]
          simp [stampEmit]
    · by_cases hdone : fe ≤ now
      · rw [waterStep_fire_idle_done pose w hfe hns hdone]
        simp [stampEmit]
      · rw [waterStep_fire_idle_cont pose w hfe hns hdone]
        simp [stampEmit]

theorem waterRun_nextSend (p : WaterParams) (det : ℚ → Option Pose)
    (wr : ℚ → Except String Unit) :
    ∀ (ts : List ℚ) (s : WaterState),
      (waterRun p det wr ts s).final.nextSend =
        s.nextSend + ((waterRun p det wr ts s).lines.length : ℚ) * rateDt p.sendHz := by
  intro ts
  induction ts with
  | nil =>
    intro s
    simp [waterRun]
  | cons t ts ih =>
    intro s
    by_cases hb : (waterStep p s t (det t) (wr t)).brk = true
    · rw [waterRun_cons_brk hb]
      simpa using waterStep_nextSend p s t (det t) (wr t)
    · rw [waterRun_cons_cont (by simpa using hb)]
      have h1 := waterStep_nextSend p s t (det t) (wr t)
      have h2 := ih ((waterStep p s t (det t) (wr t)).state)
      simp only [List.length_append] at h2 ⊢
      rw [h2, h1]
      push_cast
      ring

/-- C5: the send schedule advances by exactly one period per emitted command
(`next_tick += dt`, never by elapsed time): whatever the loop-iteration times
and the detection/serial behaviour, after `k` emissions the worker's
`next_send` equals session start plus `k·dt`. -/
theorem spec_C5_fixed_cadence (p : WaterParams) (det : ℚ → Option Pose)
    (wr : ℚ → Except String Unit) (t0 : ℚ) (ts : List ℚ) :
    (waterRun p det wr ts (initWaterState p t0)).final.nextSend =
      t0 + ((waterRun p det wr ts (initWaterState p t0)).lines.length : ℚ) *
        rateDt p.sendHz := by
  simpa [initWaterState] using waterRun_nextSend p det wr ts (initWaterState p t0)

theorem waterStep_write_invariant (p : WaterParams) (s : WaterState) (now : ℚ)
    (pose : Option Pose) (w₁ w₂ : Except String Unit) :
    (waterStep p s now pose w₁).state = (waterStep p s now pose w₂).state ∧
    (waterStep p s now pose w₁).emit.map Prod.fst =
      (waterStep p s now pose w₂).emit.map Prod.fst ∧
    (waterStep p s now pose w₁).brk = (waterStep p s now pose w₂).brk := by
  by_cases hfe0 : s.fireEnd = none
  · by_cases hsc : s.scanEnd ≤ now
    · rw [waterStep_scan_timeout pose w₁ hfe0 hsc, waterStep_scan_timeout pose w₂ hfe0 hsc]
      exact ⟨rfl, rfl, rfl⟩
    · by_cases hns : s.nextSend ≤ now
      · cases pose with
        | none =>
          rw [waterStep_scan_miss w₁ hfe0 hsc hns, waterStep_scan_miss w₂ hfe0 hsc hns]
          exact ⟨rfl, rfl, rfl⟩
        | some q =>
          by_cases hdone : now + max 0 p.fireSeconds ≤ now
          · rw [waterStep_scan_hit_done w₁ hfe0 hsc hns hdone,
              waterStep_scan_hit_done w₂ hfe0 hsc hns hdone]
            exact ⟨rfl, rfl, rfl⟩
          · rw [waterStep_scan_hit_cont w₁ hfe0 hsc hns hdone,
              waterStep_scan_hit_cont w₂ hfe0 hsc hns hdone]
            exact ⟨rfl, rfl, rfl⟩
      · rw [waterStep_scan_idle pose w₁ hfe0 hsc hns, waterStep_scan_idle pose w₂ hfe0 hsc hns]
        exact ⟨rfl, rfl, rfl⟩
  · obtain ⟨fe, hfe⟩ := Option.ne_none_iff_exists'.mp hfe0
    by_cases hns : s.nextSend ≤ now
    · cases pose with
      | none =>
        by_cases hdone : fe ≤ now
        · rw [waterStep_fire_gap_done w₁ hfe hns hdone, waterStep_fire_gap_done w₂ hfe hns hdone]
          exact ⟨rfl, rfl, rfl⟩
        · rw [waterStep_fire_gap_cont w₁ hfe hns hdone, waterStep_fire_gap_cont w₂ hfe hns hdone]
          exact ⟨rfl, rfl, rfl⟩
      | some q =>
        by_cases hdone : fe ≤ now
        · rw [waterStep_fire_hit_done w₁ hfe hns hdone, waterStep_fire_hit_done w₂ hfe hns hdone]
          exact ⟨rfl, rfl, rfl⟩
        · rw [waterStep_fire_hit_cont w₁ hfe hns hdone, waterStep_fire_hit_cont w₂ hfe hns hdone]
          exact ⟨rfl, rfl, rfl⟩
    · by_cases hdone : fe ≤ now
      · rw [waterStep_fire_idle_done pose w₁ hfe hns hdone,
          waterStep_fire_idle_done pose w₂ hfe hns hdone]
        exact ⟨rfl, rfl, rfl⟩
      · rw [waterStep_fire_idle_cont pose w₁ hfe hns hdone,
          waterStep_fire_idle_cont pose w₂ hfe hns hdone]
        exact ⟨rfl, rfl, rfl⟩

theorem stampEmit_map_fst (t : ℚ) (e₁ e₂ : Option (WaterCmd × Bool))
    (h : e₁.map Prod.fst = e₂.map Prod.fst) :
    (stampEmit t e₁).map (fun x => (x.1, x.2.1)) =
      (stampEmit t e₂).map (fun x => (x.1, x.2.1)) := by
  cases e₁ <;> cases e₂ <;> simp [stampEmit] at h ⊢
  exact h

theorem waterRun_write_invariant (p : WaterParams) (det : ℚ → Option Pose)
    (wr₁ wr₂ : ℚ → Except String Unit) :
    ∀ (ts : List ℚ) (s : WaterState),
      (waterRun p det wr₁ ts s).final = (waterRun p det wr₂ ts s).final ∧
      (waterRun p det wr₁ ts s).lines.map (fun e => (e.1, e.2.1)) =
        (waterRun p det wr₂ ts s).lines.map (fun e => (e.1, e.2.1)) ∧
      (waterRun p det wr₁ ts s).exitAt = (waterRun p det wr₂ ts s).exitAt := by
  intro ts
  induction ts with
  | nil =>
    intro s
    exact ⟨rfl, rfl, rfl⟩
  | cons t ts ih =>
    intro s
    obtain ⟨hst, hem, hbrk⟩ := waterStep_write_invariant p s t (det t) (wr₁ t) (wr₂ t)
    by_cases hb : (waterStep p s t (det t) (wr₁ t)).brk = true
    · have hb₂ : (waterStep p s t (det t) (wr₂ t)).brk = true := by rw [← hbrk]; exact hb
      rw [waterRun_cons_brk hb, waterRun_cons_brk hb₂]
      exact ⟨by rw [hst], stampEmit_map_fst t _ _ hem, rfl⟩
    · have hb₂ : (waterStep p s t (det t) (wr₂ t)).brk = false := by
        rw [← hbrk]; simpa using hb
      rw [waterRun_cons_cont (by simpa using hb), waterRun_cons_cont hb₂, ← hst]
      obtain ⟨ih1, ih2, ih3⟩ := ih ((waterStep p s t (det t) (wr₁ t)).state)
      refine ⟨ih1, ?_, ih3⟩
      simp only [List.map_append]
      rw [stampEmit_map_fst t _ _ hem, ih2]

/-- C8: a serial write failure during a tick is returned to the caller as
`false`, never raised; and the session's state evolution — phases, deadlines,
tick schedule, emitted intents and termination — is identical for any two
assignments of write outcomes, so a write failure never perturbs or
terminates the session. -/
theorem spec_C8_write_failure_isolated (p : WaterParams) (det : ℚ → Option Pose)
    (ts : List ℚ) (s : WaterState) (wr₁ wr₂ : ℚ → Except String Unit) :
    (∀ msg, serialWriteLine (Except.error msg) = false) ∧
    (waterRun p det wr₁ ts s).final = (waterRun p det wr₂ ts s).final ∧
    (waterRun p det wr₁ ts s).lines.map (fun e => (e.1, e.2.1)) =
      (waterRun p det wr₂ ts s).lines.map (fun e => (e.1, e.2.1)) ∧
    (waterRun p det wr₁ ts s).exitAt = (waterRun p det wr₂ ts s).exitAt :=
  ⟨fun _ => rfl, waterRun_write_invariant p det wr₁ wr₂ ts s⟩

theorem waterRun_scan_never (p : WaterParams) (det : ℚ → Option Pose)
    (wr : ℚ → Except String Unit) (hdet : ∀ u, det u = none) :
    ∀ (ts : List ℚ) (s : WaterState), s.fireEnd = none →
      (waterRun p det wr ts s).final.success = s.success ∧
      (∀ e ∈ (waterRun p det wr ts s).lines, e.1 < s.scanEnd ∧ e.2.1.found = false) ∧
      (∀ u, (waterRun p det wr ts s).exitAt = some u → s.scanEnd ≤ u) := by
  intro ts
  induction ts with
  | nil =>
    intro s hfe
    refine ⟨rfl, ?_, ?_⟩
    · intro e he
      simp [waterRun] at he
    · intro u hu
      simp [waterRun] at hu
  | cons t ts ih =>
    intro s hfe
    by_cases hsc : s.scanEnd ≤ t
    · have hb : waterStep p s t (det t) (wr t) = ⟨s, none, true⟩ :=
        waterStep_scan_timeout _ _ hfe hsc
      rw [waterRun_cons_brk (by rw [hb]), hb]
      refine ⟨rfl, ?_, ?_⟩
      · intro e he
        simp [stampEmit] at he
      · intro u hu
        simp only at hu
        cases hu
        exact hsc
    · by_cases hns : s.nextSend ≤ t
      · have hb : waterStep p s t (det t) (wr t) =
            ⟨{ s with nextSend := s.nextSend + rateDt p.sendHz },
              some (scanMissCmd s t, serialWriteLine (wr t)), false⟩ := by
          rw [hdet t]
          exact waterStep_scan_miss (wr t) hfe hsc hns
        rw [waterRun_cons_cont (by rw [hb]), hb]
        obtain ⟨ih1, ih2, ih3⟩ :=
          ih { s with nextSend := s.nextSend + rateDt p.sendHz } hfe
        refine ⟨ih1, ?_, ih3⟩
        intro e he
        simp only [stampEmit, List.cons_append, List.nil_append, List.mem_cons] at he
        rcases he with he | he
        · subst he
          exact ⟨not_le.mp hsc, rfl⟩
        · exact ih2 e he
      · have hb : waterStep p s t (det t) (wr t) = ⟨s, none, false⟩ :=
          waterStep_scan_idle _ _ hfe hsc hns
        rw [waterRun_cons_cont (by rw [hb]), hb]
        obtain ⟨ih1, ih2, ih3⟩ := ih s hfe
        refine ⟨ih1, ?_, ih3⟩
        intro e he
        simp only [stampEmit, List.nil_append] at he
        exact ih2 e he

/-- C2: in a session whose detection store never returns the target pose,
the loop can only terminate at a wall-clock time at or after session start
plus `scan_timeout_s` (never before); every command it emits is stamped
strictly before the scan deadline and is a SCAN `found=false` intent; and the
session emits exactly one terminal report, a failure. -/
theorem spec_C2_scan_timeout (p : WaterParams) (det : ℚ → Option Pose)
    (wr : ℚ → Except String Unit) (t0 : ℚ) (ts : List ℚ)
    (hdet : ∀ u, det u = none) (h0 : 0 ≤ p.scanSeconds) :
    (∀ u, (waterWorker p det wr t0 ts).1.exitAt = some u → t0 + p.scanSeconds ≤ u) ∧
    (∀ e ∈ (waterWorker p det wr t0 ts).1.lines,
        e.1 < t0 + p.scanSeconds ∧ e.2.1.found = false) ∧
    (waterWorker p det wr t0 ts).2 = [{ success := false }] := by
  have hmax : (initWaterState p t0).scanEnd = t0 + p.scanSeconds := by
    simp [initWaterState, max_eq_right h0]
  obtain ⟨h1, h2, h3⟩ := waterRun_scan_never p det wr hdet ts (initWaterState p t0) rfl
  refine ⟨?_, ?_, ?_⟩
  · intro u hu
    rw [← hmax]
    exact h3 u hu
  · intro e he
    obtain ⟨hlt, hfnd⟩ := h2 e he
    rw [← hmax]
    exact ⟨hlt, hfnd⟩
  · show [(⟨(waterRun p det wr ts (initWaterState p t0)).final.success⟩ : WaterReport)] = _
    rw [h1]
    rfl

/-- C2 witness: a concrete never-found session with `scan_timeout_s = 2`
whose loop crosses the deadline at `t = 5/2`, yielding the single failure
report. -/
theorem spec_C2_witness :
    (∀ u, (waterWorker ⟨10, 2, 1, 0⟩ (fun _ => none) (fun _ => Except.ok ())
        0 [0, 1, 5 / 2]).1.exitAt = some u → (0 : ℚ) + 2 ≤ u) ∧
    (waterWorker ⟨10, 2, 1, 0⟩ (fun _ => none) (fun _ => Except.ok ())
        0 [0, 1, 5 / 2]).2 = [{ success := false }] :=
  ⟨(spec_C2_scan_timeout ⟨10, 2, 1, 0⟩ (fun _ => none) (fun _ => Except.ok ())
      0 [0, 1, 5 / 2] (fun _ => rfl) (by norm_num)).1,
   (spec_C2_scan_timeout ⟨10, 2, 1, 0⟩ (fun _ => none) (fun _ => Except.ok ())
      0 [0, 1, 5 / 2] (fun _ => rfl) (by norm_num)).2.2⟩

/-- C3 counterexample: session at 1 Hz, target seen only at `t = 0` with
`dx = 0.12`; at the FIRE-phase tick `t = 1` the target is absent and the
emitted intent carries `dx = 0`, not the last known `dx = 0.12` — the code
retains only the last dz and pitch, never the last dx. -/
theorem spec_C3_counterexample :
    ((waterRun ⟨1, 10, 3, 5⟩
        (fun t => if t = 0 then some ⟨12 / 100, 0, 3 / 10, 0, 9, 0, 1⟩ else none)
        (fun _ => Except.ok ()) [0, 1, 3]
        (initWaterState ⟨1, 10, 3, 5⟩ 0)).lines.map (fun e => e.2.1))[1]? =
      some { found := true, dx := 0, dz := 3 / 10, pitch := 9, sweep := some 0 } ∧
    (0 : ℚ) ≠ 12 / 100 := by
  constructor
  · norm_num [waterRun, waterStep, waterEmit, fireCheck, initWaterState, rateDt,
      scanMissCmd, fireHitCmd, fireGapCmd, stampEmit, serialWriteLine]
  · norm_num

/-- C3 (amended): at every FIRE-phase tick the session stays in FIRE with an
unchanged fire deadline (it never reverts to SCAN), and when the target is
absent at a send tick it emits `found=true` with `dx = 0`, the last known dz
and the last known pitch. -/
theorem spec_C3_fire_gap_policy (p : WaterParams) (s : WaterState) (now fe : ℚ)
    (pose : Option Pose) (w : Except String Unit) (hfe : s.fireEnd = some fe) :
    (waterStep p s now pose w).state.fireEnd = some fe ∧
    (pose = none → s.nextSend ≤ now →
      (waterStep p s now pose w).emit = some (fireGapCmd s, serialWriteLine w) ∧
      (fireGapCmd s).found = true ∧ (fireGapCmd s).dx = 0 ∧
      (fireGapCmd s).dz = s.lastDz ∧ (fireGapCmd s).pitch = s.lastPitch) := by
  constructor
  · by_cases hns : s.nextSend ≤ now
    · cases pose with
      | none =>
        by_cases hdone : fe ≤ now
        · rw [waterStep_fire_gap_done w hfe hns hdone]
          exact hfe
        · rw [waterStep_fire_gap_cont w hfe hns hdone]
          exact hfe
      | some q =>
        by_cases hdone : fe ≤ now
        · rw [waterStep_fire_hit_done w hfe hns hdone]
          exact hfe
        · rw [waterStep_fire_hit_cont w hfe hns hdone]
          exact hfe
    · by_cases hdone : fe ≤ now
      · rw [waterStep_fire_idle_done pose w hfe hns hdone]
        exact hfe
      · rw [waterStep_fire_idle_cont pose w hfe hns hdone]
        exact hfe
  · intro hp hns
    subst hp
    by_cases hdone : fe ≤ now
    · rw [waterStep_fire_gap_done w hfe hns hdone]
      exact ⟨rfl, rfl, rfl, rfl, rfl⟩
    · rw [waterStep_fire_gap_cont w hfe hns hdone]
      exact ⟨rfl, rfl, rfl, rfl, rfl⟩

/-- C3 witness: the amended policy applied at a concrete FIRE-phase gap
tick. -/
theorem spec_C3_fire_gap_policy_witness :
    (waterStep ⟨1, 10, 3, 5⟩ ⟨5, some 3, 9, 3 / 10, false, 1⟩ 1 none
      (Except.ok ())).state.fireEnd = some 3 ∧
    (waterStep ⟨1, 10, 3, 5⟩ ⟨5, some 3, 9, 3 / 10, false, 1⟩ 1 none
      (Except.ok ())).emit =
      some (fireGapCmd ⟨5, some 3, 9, 3 / 10, false, 1⟩, serialWriteLine (Except.ok ())) :=
  ⟨(spec_C3_fire_gap_policy ⟨1, 10, 3, 5⟩ ⟨5, some 3, 9, 3 / 10, false, 1⟩ 1 3
      none (Except.ok ()) rfl).1,
   ((spec_C3_fire_gap_policy ⟨1, 10, 3, 5⟩ ⟨5, some 3, 9, 3 / 10, false, 1⟩ 1 3
      none (Except.ok ()) rfl).2 rfl (by norm_num)).1⟩

theorem fire_count_arith (m a' : ℕ) (hm : 1 ≤ m) :
    1 + (if m - 1 ≤ a' then (a' - (m - 1)) / m + 1 else 0) = (a' + 1) / m + 1 := by
  by_cases hma : m ≤ a' + 1
  · rw [if_pos (show m - 1 ≤ a' by omega)]
    have h2 : a' - (m - 1) = a' + 1 - m := by omega
    rw [h2, Nat.div_eq_sub_div (by omega) hma]
    omega
  · rw [if_neg (show ¬ m - 1 ≤ a' by omega)]
    rw [Nat.div_eq_of_lt (by omega)]

theorem waterRun_fire_break (p : WaterParams) (det : ℚ → Option Pose)
    (wr : ℚ → Except String Unit) (t : ℚ) (ts : List ℚ) (s : WaterState) (fe : ℚ)
    (hfe : s.fireEnd = some fe) (hle : fe ≤ t) :
    (waterRun p det wr (t :: ts) s).final.success = true ∧
    (waterRun p det wr (t :: ts) s).exitAt = some t ∧
    (waterRun p det wr (t :: ts) s).lines.length = (if s.nextSend ≤ t then 1 else 0) ∧
    (∀ e ∈ (waterRun p det wr (t :: ts) s).lines, e.2.1.found = true) := by
  by_cases hns : s.nextSend ≤ t
  · cases hq : det t with
    | none =>
      have hstep : waterStep p s t (det t) (wr t) =
          ⟨{ s with nextSend := s.nextSend + rateDt p.sendHz, success := true },
            some (fireGapCmd s, serialWriteLine (wr t)), true⟩ := by
        rw [hq]
        exact waterStep_fire_gap_done (wr t) hfe hns hle
      rw [waterRun_cons_brk (by rw [hstep]), hstep]
      refine ⟨rfl, rfl, by simp [stampEmit, hns], ?_⟩
      intro e he
      simp only [stampEmit, List.mem_singleton] at he
      subst he
      rfl
    | some q =>
      have hstep : waterStep p s t (det t) (wr t) =
          ⟨{ s with lastPitch := q.pitch, lastDz := q.tvec2,
                    nextSend := s.nextSend + rateDt p.sendHz, success := true },
            some (fireHitCmd q, serialWriteLine (wr t)), true⟩ := by
        rw [hq]
        exact waterStep_fire_hit_done (wr t) hfe hns hle
      rw [waterRun_cons_brk (by rw [hstep]), hstep]
      refine ⟨rfl, rfl, by simp [stampEmit, hns], ?_⟩
      intro e he
      simp only [stampEmit, List.mem_singleton] at he
      subst he
      rfl
  · have hstep : waterStep p s t (det t) (wr t) = ⟨{ s with success := true }, none, true⟩ :=
      waterStep_fire_idle_done (det t) (wr t) hfe hns hle
    rw [waterRun_cons_brk (by rw [hstep]), hstep]
    refine ⟨rfl, rfl, by simp [stampEmit, hns], ?_⟩
    intro e he
    simp [stampEmit] at he

theorem waterRun_fire_grid (p : WaterParams) (det : ℚ → Option Pose)
    (wr : ℚ → Except String Unit) (δ : ℚ) (m : ℕ) (hδ : 0 < δ) (hm : 1 ≤ m)
    (hdt : rateDt p.sendHz = (m : ℚ) * δ) :
    ∀ (n a b : ℕ) (t : ℚ) (s : WaterState),
      s.fireEnd = some (t + (a : ℚ) * δ) →
      s.nextSend = t + (b : ℚ) * δ →
      a ≤ n →
      (waterRun p det wr (gridTimes t δ (n + 1)) s).final.success = true ∧
      (waterRun p det wr (gridTimes t δ (n + 1)) s).exitAt = some (t + (a : ℚ) * δ) ∧
      (waterRun p det wr (gridTimes t δ (n + 1)) s).lines.length =
        (if b ≤ a then (a - b) / m + 1 else 0) ∧
      (∀ e ∈ (waterRun p det wr (gridTimes t δ (n + 1)) s).lines, e.2.1.found = true) := by
  intro n
  induction n with
  | zero =>
    intro a b t s hfe hns ha
    have ha0 : a = 0 := Nat.le_zero.mp ha
    subst ha0
    have hle : t + (0 : ℕ) * δ ≤ t := by push_cast; simp
    rw [show gridTimes t δ 1 = t :: ([] : List ℚ) from rfl]
    obtain ⟨b1, b2, b3, b4⟩ := waterRun_fire_break p det wr t [] s _ hfe hle
    refine ⟨b1, by rw [b2]; norm_num, ?_, b4⟩
    rw [b3, hns]
    rcases Nat.eq_zero_or_pos b with hb0 | hbpos
    · subst hb0
      rw [if_pos (by push_cast; simp), if_pos (le_refl 0)]
      simp
    · have hgt : ¬ t + (b : ℚ) * δ ≤ t := by
        have : (0 : ℚ) < (b : ℚ) * δ := mul_pos (by exact_mod_cast hbpos) hδ
        linarith
      rw [if_neg hgt, if_neg (by omega)]
  | succ n ih =>
    intro a b t s hfe hns ha
    cases a with
    | zero =>
      have hle : t + ((0 : ℕ) : ℚ) * δ ≤ t := by push_cast; simp
      rw [show gridTimes t δ (n + 1 + 1) = t :: gridTimes (t + δ) δ (n + 1) from rfl]
      obtain ⟨b1, b2, b3, b4⟩ := waterRun_fire_break p det wr t _ s _ hfe hle
      refine ⟨b1, by rw [b2]; norm_num, ?_, b4⟩
      rw [b3, hns]
      rcases Nat.eq_zero_or_pos b with hb0 | hbpos
      · subst hb0
        rw [if_pos (by push_cast; simp), if_pos (le_refl 0)]
        simp
      · have hgt : ¬ t + (b : ℚ) * δ ≤ t := by
          have : (0 : ℚ) < (b : ℚ) * δ := mul_pos (by exact_mod_cast hbpos) hδ
          linarith
        rw [if_neg hgt, if_neg (by omega)]
    | succ a' =>
      have hnb : ¬ (t + ((a' + 1 : ℕ) : ℚ) * δ) ≤ t := by
        have : (0 : ℚ) < ((a' + 1 : ℕ) : ℚ) * δ :=
          mul_pos (by exact_mod_cast Nat.succ_pos a') hδ
        linarith
      rw [show gridTimes t δ (n + 1 + 1) = t :: gridTimes (t + δ) δ (n + 1) from rfl]
      rcases Nat.eq_zero_or_pos b with hb0 | hbpos
      · subst hb0
        have hns' : s.nextSend ≤ t := by rw [hns]; push_cast; simp
        cases hq : det t with
        | none =>
          have hstep : waterStep p s t (det t) (wr t) =
              ⟨{ s with nextSend := s.nextSend + rateDt p.sendHz },
                some (fireGapCmd s, serialWriteLine (wr t)), false⟩ := by
            rw [hq]
            exact waterStep_fire_gap_cont (wr t) hfe hns' hnb
          rw [waterRun_cons_cont (by rw [hstep]), hstep]
          obtain ⟨g1, g2, g3, g4⟩ := ih a' (m - 1) (t + δ)
            { s with nextSend := s.nextSend + rateDt p.sendHz }
            (by show s.fireEnd = some (t + δ + (a' : ℚ) * δ)
                rw [hfe]; congr 1; push_cast; ring)
            (by show s.nextSend + rateDt p.sendHz = t + δ + ((m - 1 : ℕ) : ℚ) * δ
                rw [hns, hdt, Nat.cast_sub hm]; push_cast; ring)
            (by omega)
          refine ⟨g1, ?_, ?_, ?_⟩
          · rw [g2]; congr 1; push_cast; ring
          · simp only [stampEmit, List.length_append, List.length_singleton, g3]
            have h0 : (if 0 ≤ a' + 1 then (a' + 1 - 0) / m + 1 else 0) =
                (a' + 1) / m + 1 := by simp
            rw [h0]
            exact fire_count_arith m a' hm
          · intro e he
            simp only [stampEmit, List.cons_append, List.nil_append, List.mem_cons] at he
            rcases he with he | he
            · subst he; rfl
            · exact g4 e he
        | some q =>
          have hstep : waterStep p s t (det t) (wr t) =
              ⟨{ s with lastPitch := q.pitch, lastDz := q.tvec2,
                        nextSend := s.nextSend + rateDt p.sendHz },
                some (fireHitCmd q, serialWriteLine (wr t)), false⟩ := by
            rw [hq]
            exact waterStep_fire_hit_cont (wr t) hfe hns' hnb
          rw [waterRun_cons_cont (by rw [hstep]), hstep]
          obtain ⟨g1, g2, g3, g4⟩ := ih a' (m - 1) (t + δ)
            { s with lastPitch := q.pitch, lastDz := q.tvec2,
                     nextSend := s.nextSend + rateDt p.sendHz }
            (by show s.fireEnd = some (t + δ + (a' : ℚ) * δ)
                rw [hfe]; congr 1; push_cast; ring)
            (by show s.nextSend + rateDt p.sendHz = t + δ + ((m - 1 : ℕ) : ℚ) * δ
                rw [hns, hdt, Nat.cast_sub hm]; push_cast; ring)
            (by omega)
          refine ⟨g1, ?_, ?_, ?_⟩
          · rw [g2]; congr 1; push_cast; ring
          · simp only [stampEmit, List.length_append, List.length_singleton, g3]
            have h0 : (if 0 ≤ a' + 1 then (a' + 1 - 0) / m + 1 else 0) =
                (a' + 1) / m + 1 := by simp
            rw [h0]
            exact fire_count_arith m a' hm
          · intro e he
            simp only [stampEmit, List.cons_append, List.nil_append, List.mem_cons] at he
            rcases he with he | he
            · subst he; rfl
            · exact g4 e he
      · have hns' : ¬ s.nextSend ≤ t := by
          rw [hns]
          have : (0 : ℚ) < (b : ℚ) * δ := mul_pos (by exact_mod_cast hbpos) hδ
          linarith
        have hstep : waterStep p s t (det t) (wr t) = ⟨s, none, false⟩ :=
          waterStep_fire_idle_cont (det t) (wr t) hfe hns' hnb
        rw [waterRun_cons_cont (by rw [hstep]), hstep]
        obtain ⟨g1, g2, g3, g4⟩ := ih a' (b - 1) (t + δ) s
          (by rw [hfe]; congr 1; push_cast; ring)
          (by rw [hns, Nat.cast_sub hbpos]; push_cast; ring)
          (by omega)
        refine ⟨g1, ?_, ?_, ?_⟩
        · rw [g2]; congr 1; push_cast; ring
        · simp only [stampEmit, List.nil_append, g3]
          have hsub : a' - (b - 1) = a' + 1 - b := by omega
          by_cases hc : b ≤ a' + 1
          · rw [if_pos (show b - 1 ≤ a' by omega), if_pos hc, hsub]
          · rw [if_neg (show ¬ b - 1 ≤ a' by omega), if_neg hc]
        · intro e he
          simp only [stampEmit, List.nil_append] at he
          exact g4 e he

/-- C1: if the target pose is visible at a scheduled tick `t0` before the
scan deadline, the session transitions from SCAN to FIRE at that same tick —
the state's `fire_end` is set and the line emitted at `t0` is the FIRE-phase
`found=true` intent carrying the pose (no SCAN `found=false` intent is
emitted at that tick or any later one); running on the ideal tick grid of
spacing `δ` (with `dt = m·δ` and `fire_duration = j·δ`), the session stays in
FIRE until the fire deadline `t0 + fire_duration` and terminates successfully
there, having emitted exactly `j/m + 1 = ⌊fire_duration·send_rate⌋ + 1` FIRE
intents — within the claimed `⌊fire_duration·send_rate⌋ ± 1`. -/
theorem spec_C1_scan_to_fire (p : WaterParams) (det : ℚ → Option Pose)
    (wr : ℚ → Except String Unit) (q : Pose) (t0 δ : ℚ) (m j n : ℕ) (s : WaterState)
    (hδ : 0 < δ) (hm : 1 ≤ m)
    (hdt : rateDt p.sendHz = (m : ℚ) * δ)
    (hF : max 0 p.fireSeconds = (j : ℚ) * δ)
    (hjn : j ≤ n)
    (hdet : det t0 = some q)
    (hfe : s.fireEnd = none)
    (hsc : t0 < s.scanEnd)
    (hns : s.nextSend = t0)
    (hhz : 1 / 1000000 ≤ p.sendHz) :
    (waterStep p s t0 (det t0) (wr t0)).state.fireEnd =
      some (t0 + max 0 p.fireSeconds) ∧
    (waterRun p det wr (gridTimes t0 δ (n + 1)) s).lines.head? =
      some (t0, fireHitCmd q, serialWriteLine (wr t0)) ∧
    (∀ e ∈ (waterRun p det wr (gridTimes t0 δ (n + 1)) s).lines,
        e.2.1.found = true) ∧
    (waterRun p det wr (gridTimes t0 δ (n + 1)) s).final.success = true ∧
    (waterRun p det wr (gridTimes t0 δ (n + 1)) s).exitAt =
      some (t0 + (j : ℚ) * δ) ∧
    (waterRun p det wr (gridTimes t0 δ (n + 1)) s).lines.length = j / m + 1 ∧
    (waterRun p det wr (gridTimes t0 δ (n + 1)) s).lines.length =
      ⌊max 0 p.fireSeconds * p.sendHz⌋₊ + 1 := by
  have hnsle : s.nextSend ≤ t0 := le_of_eq hns
  have hscn : ¬ s.scanEnd ≤ t0 := not_le.mpr hsc
  -- the floor computation shared by the last conjunct
  have hmax : max p.sendHz (1 / 1000000) = p.sendHz := max_eq_left hhz
  have hhz0 : (0 : ℚ) < p.sendHz := lt_of_lt_of_le (by norm_num) hhz
  have hm0 : (0 : ℚ) < (m : ℚ) := by exact_mod_cast hm
  have hdt' : 1 / p.sendHz = (m : ℚ) * δ := by
    rw [← hmax]
    rw [rateDt] at hdt
    exact hdt
  have hz_eq : p.sendHz = ((m : ℚ) * δ)⁻¹ := by
    rw [← hdt', one_div, inv_inv]
  have hfloor : ⌊max 0 p.fireSeconds * p.sendHz⌋₊ = j / m := by
    have hval : max 0 p.fireSeconds * p.sendHz = ((j : ℕ) : ℚ) / ((m : ℕ) : ℚ) := by
      rw [hF, hz_eq]
      field_simp
      ring
    rw [hval, Nat.floor_div_nat, Nat.floor_natCast]
  cases j with
  | zero =>
    have hF0 : max 0 p.fireSeconds = 0 := by rw [hF]; push_cast; ring
    have hdone : t0 + max 0 p.fireSeconds ≤ t0 := by rw [hF0]; simp
    have hstep : waterStep p s t0 (det t0) (wr t0) =
        ⟨{ s with lastPitch := q.pitch, lastDz := q.tvec2,
                  fireEnd := some (t0 + max 0 p.fireSeconds),
                  nextSend := s.nextSend + rateDt p.sendHz, success := true },
          some (fireHitCmd q, serialWriteLine (wr t0)), true⟩ := by
      rw [hdet]
      exact waterStep_scan_hit_done (wr t0) hfe hscn hnsle hdone
    rw [show gridTimes t0 δ (n + 1) = t0 :: gridTimes (t0 + δ) δ n from rfl]
    rw [waterRun_cons_brk (by rw [hstep]), hstep]
    refine ⟨rfl, rfl, ?_, rfl, ?_, by simp [stampEmit], ?_⟩
    · intro e he
      simp only [stampEmit, List.mem_singleton] at he
      subst he
      rfl
    · show some t0 = some (t0 + ((0 : ℕ) : ℚ) * δ)
      congr 1
      push_cast
      ring
    · rw [hfloor]
      simp [stampEmit]
  | succ j' =>
    have hcont : ¬ t0 + max 0 p.fireSeconds ≤ t0 := by
      rw [hF]
      have : (0 : ℚ) < ((j' + 1 : ℕ) : ℚ) * δ :=
        mul_pos (by exact_mod_cast Nat.succ_pos j') hδ
      linarith
    have hstep : waterStep p s t0 (det t0) (wr t0) =
        ⟨{ s with lastPitch := q.pitch, lastDz := q.tvec2,
                  fireEnd := some (t0 + max 0 p.fireSeconds),
                  nextSend := s.nextSend + rateDt p.sendHz },
          some (fireHitCmd q, serialWriteLine (wr t0)), false⟩ := by
      rw [hdet]
      exact waterStep_scan_hit_cont (wr t0) hfe hscn hnsle hcont
    obtain ⟨n', rfl⟩ : ∃ n', n = n' + 1 := ⟨n - 1, by omega⟩
    rw [show gridTimes t0 δ (n' + 1 + 1) = t0 :: gridTimes (t0 + δ) δ (n' + 1) from rfl]
    rw [waterRun_cons_cont (by rw [hstep]), hstep]
    obtain ⟨g1, g2, g3, g4⟩ := waterRun_fire_grid p det wr δ m hδ hm hdt n' j' (m - 1)
      (t0 + δ)
      { s with lastPitch := q.pitch, lastDz := q.tvec2,
               fireEnd := some (t0 + max 0 p.fireSeconds),
               nextSend := s.nextSend + rateDt p.sendHz }
      (by show some (t0 + max 0 p.fireSeconds) = some (t0 + δ + (j' : ℚ) * δ)
          rw [hF]; congr 1; push_cast; ring)
      (by show s.nextSend + rateDt p.sendHz = t0 + δ + ((m - 1 : ℕ) : ℚ) * δ
          rw [hns, hdt, Nat.cast_sub hm]; push_cast; ring)
      (by omega)
    refine ⟨rfl, rfl, ?_, g1, ?_, ?_, ?_⟩
    · intro e he
      simp only [stampEmit, List.cons_append, List.nil_append, List.mem_cons] at he
      rcases he with he | he
      · subst he; rfl
      · exact g4 e he
    · rw [g2]
      congr 1
      push_cast
      ring
    · simp only [stampEmit, List.length_append, List.length_singleton, g3]
      have h0 : (if m - 1 ≤ j' then (j' - (m - 1)) / m + 1 else 0) =
          (if 0 ≤ j' + 1 then (j' + 1 - 0) / m + 1 else 0) - 1 := by
        have h1 : (if 0 ≤ j' + 1 then (j' + 1 - 0) / m + 1 else 0) =
            (j' + 1) / m + 1 := by simp
        have h2 := fire_count_arith m j' hm
        omega
      have h2 := fire_count_arith m j' hm
      omega
    · rw [hfloor]
      simp only [stampEmit, List.length_append, List.length_singleton, g3]
      have h2 := fire_count_arith m j' hm
      omega

/-- C1 witness: a session at 1 Hz (`dt = 1 = 1·1`) with `fire_duration = 2 =
2·1` acquiring the target at `t0 = 0` on the unit grid: the claim theorem
applied with every hypothesis discharged concretely. -/
theorem spec_C1_witness :
    (waterRun ⟨1, 10, 2, 5⟩ (fun _ => some ⟨12 / 100, 0, 3 / 10, 0, 9, 0, 1⟩)
        (fun _ => Except.ok ()) (gridTimes 0 1 (2 + 1))
        (initWaterState ⟨1, 10, 2, 5⟩ 0)).final.success = true ∧
    (waterRun ⟨1, 10, 2, 5⟩ (fun _ => some ⟨12 / 100, 0, 3 / 10, 0, 9, 0, 1⟩)
        (fun _ => Except.ok ()) (gridTimes 0 1 (2 + 1))
        (initWaterState ⟨1, 10, 2, 5⟩ 0)).lines.length = 2 / 1 + 1 :=
  ⟨(spec_C1_scan_to_fire ⟨1, 10, 2, 5⟩ (fun _ => some ⟨12 / 100, 0, 3 / 10, 0, 9, 0, 1⟩)
      (fun _ => Except.ok ()) ⟨12 / 100, 0, 3 / 10, 0, 9, 0, 1⟩ 0 1 1 2 2
      (initWaterState ⟨1, 10, 2, 5⟩ 0) (by norm_num) (le_refl 1)
      (by norm_num [rateDt]) (by norm_num) (by norm_num) rfl rfl
      (by norm_num [initWaterState]) rfl (by norm_num)).2.2.2.1,
   (spec_C1_scan_to_fire ⟨1, 10, 2, 5⟩ (fun _ => some ⟨12 / 100, 0, 3 / 10, 0, 9, 0, 1⟩)
      (fun _ => Except.ok ()) ⟨12 / 100, 0, 3 / 10, 0, 9, 0, 1⟩ 0 1 1 2 2
      (initWaterState ⟨1, 10, 2, 5⟩ 0) (by norm_num) (le_refl 1)
      (by norm_num [rateDt]) (by norm_num) (by norm_num) rfl rfl
      (by norm_num [initWaterState]) rfl (by norm_num)).2.2.2.2.2.1⟩

end PlantHopper
